import Mathlib

/-!
Verification of the house-hunt-agent server (src/server.js) against its
design document.  The JavaScript handlers are shallowly embedded: the
persistent store becomes an explicit `St` record threaded through each
handler, the regex-based criteria extractor becomes a left-to-right scan
over the message's character list, and JavaScript numbers are idealised
as `Nat` (the claims under study do not involve float precision).
-/

set_option maxRecDepth 4000

namespace HouseHunt

/-! ## Criteria extraction (`naiveExtractCriteria`, server.js lines 215-226)

The three regexes of `naiveExtractCriteria` are literal-alternation
patterns with greedy quantifiers; for such patterns JavaScript's
leftmost-match backtracking semantics coincides with a deterministic
scan: try a match at each position, left to right, and at each position
take the maximal digit / whitespace runs (shrinking a greedy `\d+` or
`\s*` can never help because the following literal is not a digit or a
whitespace character). -/

/-- `digitsToNat ds` is the numeric value of a digit string, as JavaScript's
unary `+` computes it on an all-digit string (leading zeros allowed). -/
def digitsToNat (ds : List Char) : Nat :=
  ds.foldl (fun n c => 10 * n + (c.toNat - '0'.toNat)) 0

/-- Case-insensitive literal match of `pat` at the start of `l`
(JavaScript `/i` flag; the vocabulary is ASCII so `Char.toLower` is the
exact case folding). -/
def matchCI : List Char → List Char → Bool
  | [], _ => true
  | _ :: _, [] => false
  | p :: ps, c :: cs => (p.toLower == c.toLower) && matchCI ps cs

/-- The optional leading `\$?` of the price regex: consume a dollar sign
when present. -/
def stripDollar : List Char → List Char
  | '$' :: r => r
  | l => l

/-- Final step of a price match: the second captured digit run must have
at least 3 digits (`\d{3,}`). -/
def pricePhase3 (d1 d2 : List Char) : Option (List Char × List Char) :=
  if d2.length < 3 then none else some (d1, d2)

/-- Middle of a price match: after the first digit run, skip whitespace,
require a hyphen, skip whitespace, optionally a dollar sign, then capture
the second digit run. -/
def pricePhase2 (d1 : List Char) (r : List Char) : Option (List Char × List Char) :=
  if d1.length < 3 then none
  else
    match r with
    | '-' :: r3 =>
        pricePhase3 d1 ((stripDollar (r3.dropWhile Char.isWhitespace)).takeWhile Char.isDigit)
    | _ => none

/-- Attempt of the price regex `\$?(\d{3,})\s*-\s*\$?(\d{3,})` at one
position; returns the two captured digit runs. -/
def matchPriceAt (l : List Char) : Option (List Char × List Char) :=
  pricePhase2 ((stripDollar l).takeWhile Char.isDigit)
    (((stripDollar l).dropWhile Char.isDigit).dropWhile Char.isWhitespace)

/-- Leftmost match of the price regex over the whole text. -/
def findPrice : List Char → Option (List Char × List Char)
  | [] => none
  | c :: cs =>
    match matchPriceAt (c :: cs) with
    | some p => some p
    | none => findPrice cs

/-- Attempt of `(\d+)\s*(u1|u2|...)` (case-insensitive) at one position:
a nonempty digit run, optional whitespace, then one of the unit words as
a literal (no trailing word boundary in the source regex). -/
def matchNumUnitAt (units : List (List Char)) (l : List Char) : Option Nat :=
  let d := l.takeWhile Char.isDigit
  if d.length = 0 then none
  else
    if units.any (fun u => matchCI u ((l.dropWhile Char.isDigit).dropWhile Char.isWhitespace))
    then some (digitsToNat d) else none

/-- Leftmost match of a number-plus-unit regex over the whole text. -/
def findNumUnit (units : List (List Char)) : List Char → Option Nat
  | [] => none
  | c :: cs =>
    match matchNumUnitAt units (c :: cs) with
    | some n => some n
    | none => findNumUnit units cs

/-- Unit alternatives of the bedrooms regex `(\d+)\s*(bed|beds|br)/i`. -/
def bedsUnits : List (List Char) := ["bed".data, "beds".data, "br".data]

/-- Unit alternatives of the bathrooms regex `(\d+)\s*(bath|baths|ba)/i`. -/
def bathsUnits : List (List Char) := ["bath".data, "baths".data, "ba".data]

/-- The fixed zone vocabulary `(Sterlington|West Monroe|Monroe)/i`, in
alternation order. -/
def zoneVocab : List (List Char) := ["Sterlington".data, "West Monroe".data, "Monroe".data]

/-- Attempt of the zone regex at one position: the capture is the slice
of the *input* that matched (JavaScript returns the matched substring,
not the pattern's spelling). -/
def matchZoneAt (l : List Char) : Option (List Char) :=
  match zoneVocab.find? (fun v => matchCI v l) with
  | some v => some (l.take v.length)
  | none => none

/-- Leftmost match of the zone regex over the whole text. -/
def findZone : List Char → Option (List Char)
  | [] => none
  | c :: cs =>
    match matchZoneAt (c :: cs) with
    | some w => some w
    | none => findZone cs

/-- The partial criteria record built by `naiveExtractCriteria`: a field
is `none` exactly when the corresponding key is absent from the
JavaScript object. -/
structure Criteria where
  price_min : Option Nat := none
  price_max : Option Nat := none
  beds_min : Option Nat := none
  baths_min : Option Nat := none
  zones : Option (List String) := none
  must_haves : Option (List String) := none
  avoid : Option (List String) := none
  deriving DecidableEq

/-- `Object.keys(c).length` is nonzero: some field is present. -/
def Criteria.nonEmpty (c : Criteria) : Bool :=
  c.price_min.isSome || c.price_max.isSome || c.beds_min.isSome || c.baths_min.isSome ||
    c.zones.isSome || c.must_haves.isSome || c.avoid.isSome

/-- `naiveExtractCriteria` (server.js lines 215-226). -/
def naiveExtractCriteria (text : String) : Criteria :=
  { price_min := (findPrice text.data).map (fun p => digitsToNat p.1)
    price_max := (findPrice text.data).map (fun p => digitsToNat p.2)
    beds_min := findNumUnit bedsUnits text.data
    baths_min := findNumUnit bathsUnits text.data
    zones := (findZone text.data).map (fun w => [String.mk w])
    must_haves := none
    avoid := none }

/-! ## Persistent store and handlers

The Postgres tables become lists of records inside a state `St`; serial
primary keys become explicit counters.  Each HTTP handler is a function
from its request fields and the state to a response, the next state and
(where a claim needs it) a trace of the store / delivery-channel calls
it performed, in order. -/

/-- Row of the `buyer` table. -/
structure Buyer where
  id : Nat
  phone : String
  phone_verified : Bool
  deriving DecidableEq

/-- Row of the `otp_code` table; times are in milliseconds. -/
structure OtpRecord where
  id : Nat
  phone : String
  code : String
  expires_at : Nat
  used : Bool
  deriving DecidableEq

/-- Row of the `saved_search` table. -/
structure SavedSearch where
  id : Nat
  buyer_id : Nat
  criteria : Criteria
  created_at : Nat
  deriving DecidableEq

/-- The whole persistent store. -/
structure St where
  buyers : List Buyer
  otps : List OtpRecord
  searches : List SavedSearch
  nextBuyerId : Nat
  nextOtpId : Nat
  nextSearchId : Nat
  deriving DecidableEq

/-- `upsertBuyerByPhone` (server.js lines 133-141): `insert ... on
conflict (phone) do update set phone=excluded.phone returning *`.  On
conflict the row's only written column is `phone`, set to the value it
already has. -/
def upsertBuyerByPhone (phone : String) (st : St) : Buyer × St :=
  match st.buyers.find? (fun b => b.phone == phone) with
  | some b =>
      ({ b with phone := phone },
       { st with buyers := st.buyers.map (fun x => if x.phone == phone then { x with phone := phone } else x) })
  | none =>
      let nb : Buyer := ⟨st.nextBuyerId, phone, false⟩
      (nb, { st with buyers := st.buyers ++ [nb], nextBuyerId := st.nextBuyerId + 1 })

/-- `Math.floor(100000 + Math.random() * 900000)` with the random draw
`r ∈ [0,1)` made explicit (idealised as a rational). -/
def genCode (r : ℚ) : Nat := (⌊(100000 : ℚ) + r * 900000⌋).toNat

/-- Store / delivery-channel calls made by `POST /auth/send-otp`, in
program order. -/
inductive Event where
  | upsertBuyer (phone : String)
  | insertOtp (phone code : String) (expires : Nat)
  | smsSend (phone : String)
  | devLog
  deriving DecidableEq

/-- Response of `POST /auth/send-otp` (only the status code matters to
the claims). -/
structure SendResp where
  status : Nat
  deriving DecidableEq

/-- `POST /auth/send-otp` (server.js lines 148-176).  `smsConfigured`
models `sms && TWILIO_FROM`; `smsOk` models whether the Twilio call
throws.  A throw is caught by the surrounding `try` which only sends a
500 — the rows already written stay written. -/
def sendOtp (phone : String) (r : ℚ) (now : Nat) (smsConfigured smsOk : Bool) (st : St) :
    SendResp × St × List Event :=
  if phone == "" then (⟨400⟩, st, [])
  else
    let code := toString (genCode r)
    let st1 := (upsertBuyerByPhone phone st).2
    let orec : OtpRecord := ⟨st1.nextOtpId, phone, code, now + 600000, false⟩
    let st2 := { st1 with otps := st1.otps ++ [orec], nextOtpId := st1.nextOtpId + 1 }
    if smsConfigured then
      (⟨if smsOk then 200 else 500⟩, st2,
       [Event.upsertBuyer phone, Event.insertOtp phone code (now + 600000), Event.smsSend phone])
    else
      (⟨200⟩, st2, [Event.upsertBuyer phone, Event.insertOtp phone code (now + 600000), Event.devLog])

/-- Boolean form of the `where` clause of the check-otp select:
`phone=$1 and code=$2 and used=false and expires_at>now()`. -/
def otpOk (phone code : String) (now : Nat) (o : OtpRecord) : Bool :=
  o.phone == phone && o.code == code && !o.used && decide (now < o.expires_at)

/-- Propositional form of `otpOk`. -/
abbrev OtpOkP (phone code : String) (now : Nat) (o : OtpRecord) : Prop :=
  o.phone = phone ∧ o.code = code ∧ o.used = false ∧ now < o.expires_at

/-- `order by expires_at desc limit 1`: a row of maximal `expires_at`
(ties resolved to the earlier row; Postgres leaves tie order
unspecified). -/
def pickLatest : List OtpRecord → Option OtpRecord
  | [] => none
  | o :: os =>
    match pickLatest os with
    | none => some o
    | some o2 => if o2.expires_at > o.expires_at then some o2 else some o

/-- Response of `POST /auth/check-otp`. -/
structure CheckResp where
  status : Nat
  buyerId : Option Nat
  deriving DecidableEq

/-- Success branch of check-otp: mark the selected code used, upsert the
buyer, set its `phone_verified` flag. -/
def checkOtpSuccess (phone : String) (sel : OtpRecord) (st : St) : CheckResp × St :=
  let st1 := { st with otps := st.otps.map (fun o => if o.id == sel.id then { o with used := true } else o) }
  let b := (upsertBuyerByPhone phone st1).1
  let st2 := (upsertBuyerByPhone phone st1).2
  (⟨200, some b.id⟩,
   { st2 with buyers := st2.buyers.map (fun x => if x.id == b.id then { x with phone_verified := true } else x) })

/-- `POST /auth/check-otp` (server.js lines 179-202). -/
def checkOtp (phone code : String) (now : Nat) (st : St) : CheckResp × St :=
  if phone == "" || code == "" then (⟨400, none⟩, st)
  else
    match pickLatest (st.otps.filter (otpOk phone code now)) with
    | none => (⟨400, none⟩, st)
    | some sel => checkOtpSuccess phone sel st

/-- Per-key shallow merge `{ ...old, ...nw }` for one key: a key present
in the second object overwrites, an absent key keeps the first object's
value. -/
def ovr {α : Type} (old nw : Option α) : Option α :=
  match nw with
  | some v => some v
  | none => old

/-- `const merged = { ...rows[0].criteria, ...extracted }` (server.js
line 245), spelled per field. -/
def mergeCriteria (old nw : Criteria) : Criteria :=
  { price_min := ovr old.price_min nw.price_min
    price_max := ovr old.price_max nw.price_max
    beds_min := ovr old.beds_min nw.beds_min
    baths_min := ovr old.baths_min nw.baths_min
    zones := ovr old.zones nw.zones
    must_haves := ovr old.must_haves nw.must_haves
    avoid := ovr old.avoid nw.avoid }

/-- `order by created_at asc limit 1`: a row of minimal `created_at`
(ties resolved to the earlier row). -/
def pickEarliest : List SavedSearch → Option SavedSearch
  | [] => none
  | s :: ss =>
    match pickEarliest ss with
    | none => some s
    | some s2 => if s2.created_at < s.created_at then some s2 else some s

/-- JavaScript falsiness of an optional number field (`undefined` or
`0`), as tested by `!extracted.price_max` and `!extracted.beds_min`. -/
def optFalsy : Option Nat → Bool
  | none => true
  | some n => n == 0

/-- The price follow-up question string. -/
def priceQuestion : String := "What price range are you comfortable with? (e.g., $250000 - $450000)"

/-- The bedrooms follow-up question string. -/
def bedsQuestion : String := "How many bedrooms minimum?"

/-- The must-haves follow-up question string. -/
def mustHavesQuestion : String := "Any must-haves (pool, office, garage) or dealbreakers?"

/-- `nextQ` (server.js lines 257-261): the follow-up question, computed
from the criteria object it is given — in the handler that object is
`extracted`, this turn's parse. -/
def nextQ (c : Criteria) : String :=
  if optFalsy c.price_max then priceQuestion
  else if optFalsy c.beds_min then bedsQuestion
  else mustHavesQuestion

/-- Saved-search store calls made by `POST /agent/message`, in program
order. -/
inductive SEvent where
  | selectSearch (buyerId : Nat)
  | updateSearch (id : Nat)
  | insertSearch (buyerId : Nat)
  deriving DecidableEq

/-- Response of `POST /agent/message`. -/
structure MsgResponse where
  status : Nat
  reply : Option String
  savedSearch : Option (Nat × Criteria)
  deriving DecidableEq

/-- `POST /agent/message` (server.js lines 229-268).  `now` stands for
the database clock supplying the new row's `created_at` default. -/
def agentMessage (buyerId : Nat) (message : String) (now : Nat) (st : St) :
    MsgResponse × St × List SEvent :=
  if buyerId == 0 || message == "" then (⟨400, none, none⟩, st, [])
  else
    let e := naiveExtractCriteria message
    if e.nonEmpty then
      match pickEarliest (st.searches.filter (fun x => x.buyer_id == buyerId)) with
      | some r0 =>
          let merged := mergeCriteria r0.criteria e
          (⟨200, some (nextQ e), some (r0.id, merged)⟩,
           { st with searches := st.searches.map (fun x => if x.id == r0.id then { x with criteria := merged } else x) },
           [SEvent.selectSearch buyerId, SEvent.updateSearch r0.id])
      | none =>
          (⟨200, some (nextQ e), some (st.nextSearchId, e)⟩,
           { st with searches := st.searches ++ [⟨st.nextSearchId, buyerId, e, now⟩],
                     nextSearchId := st.nextSearchId + 1 },
           [SEvent.selectSearch buyerId, SEvent.insertSearch buyerId])
    else (⟨200, some (nextQ e), none⟩, st, [])

/-- The spec's per-key description of the shallow merge: a key present
in the new partial overwrites, a key absent from it keeps the stored
value. -/
def mergeSpec (old nw merged : Criteria) : Prop :=
  (∀ v, nw.price_min = some v → merged.price_min = some v) ∧
  (nw.price_min = none → merged.price_min = old.price_min) ∧
  (∀ v, nw.price_max = some v → merged.price_max = some v) ∧
  (nw.price_max = none → merged.price_max = old.price_max) ∧
  (∀ v, nw.beds_min = some v → merged.beds_min = some v) ∧
  (nw.beds_min = none → merged.beds_min = old.beds_min) ∧
  (∀ v, nw.baths_min = some v → merged.baths_min = some v) ∧
  (nw.baths_min = none → merged.baths_min = old.baths_min) ∧
  (∀ v, nw.zones = some v → merged.zones = some v) ∧
  (nw.zones = none → merged.zones = old.zones) ∧
  (∀ v, nw.must_haves = some v → merged.must_haves = some v) ∧
  (nw.must_haves = none → merged.must_haves = old.must_haves) ∧
  (∀ v, nw.avoid = some v → merged.avoid = some v) ∧
  (nw.avoid = none → merged.avoid = old.avoid)

/-- A sample store: one verified buyer, no codes, no saved searches. -/
def demoState : St := ⟨[⟨1, "+13185551234", true⟩], [], [], 2, 1, 1⟩

/-- A sample store whose buyer already has a saved search with only
beds_min set. -/
def demoState2 : St := ⟨[⟨1, "+13185551234", true⟩], [], [⟨1, 1, { beds_min := some 3 }, 0⟩], 2, 1, 2⟩

/-- A sample store holding one fresh unused OTP code. -/
def demoState3 : St := ⟨[], [⟨1, "+13185551234", "123456", 600000, false⟩], [], 1, 2, 1⟩

/-! ## Helper lemmas -/

theorem upsert_otps (phone : String) (st : St) :
    (upsertBuyerByPhone phone st).2.otps = st.otps := by
  unfold upsertBuyerByPhone
  cases st.buyers.find? (fun b => b.phone == phone) <;> simp

theorem upsert_nextOtpId (phone : String) (st : St) :
    (upsertBuyerByPhone phone st).2.nextOtpId = st.nextOtpId := by
  unfold upsertBuyerByPhone
  cases st.buyers.find? (fun b => b.phone == phone) <;> simp

theorem upsert_state_id (phone : String) (st : St) (h : ∃ b ∈ st.buyers, b.phone = phone) :
    (upsertBuyerByPhone phone st).2 = st := by
  obtain ⟨b, hb, hph⟩ := h
  have hs : (st.buyers.find? (fun b => b.phone == phone)).isSome := by
    rw [List.find?_isSome]
    exact ⟨b, hb, by simp [hph]⟩
  obtain ⟨b', hb'⟩ := Option.isSome_iff_exists.mp hs
  have hmap : st.buyers.map (fun x => if x.phone == phone then { x with phone := phone } else x)
      = st.buyers := by
    have hcg : ∀ x ∈ st.buyers,
        (if x.phone == phone then { x with phone := phone } else x) = id x := by
      intro x _
      by_cases hc : x.phone = phone
      · subst hc; simp
      · simp [hc]
    rw [List.map_congr_left hcg, List.map_id]
  rw [upsertBuyerByPhone, hb']
  show { st with buyers := _ } = st
  rw [hmap]

theorem ovr_some {α : Type} (old : Option α) {nw : Option α} {v : α} (h : nw = some v) :
    ovr old nw = some v := by rw [h]; rfl

theorem ovr_none {α : Type} (old : Option α) {nw : Option α} (h : nw = none) :
    ovr old nw = old := by rw [h]; rfl

theorem pickLatest_isSome (o : OtpRecord) (os : List OtpRecord) :
    (pickLatest (o :: os)).isSome = true := by
  unfold pickLatest
  cases pickLatest os with
  | none => rfl
  | some o2 => by_cases h : o2.expires_at > o.expires_at <;> simp [h]

theorem pickLatest_mem {l : List OtpRecord} {o : OtpRecord} (h : pickLatest l = some o) :
    o ∈ l := by
  induction l with
  | nil => simp [pickLatest] at h
  | cons a as ih =>
    unfold pickLatest at h
    cases hp : pickLatest as with
    | none =>
      rw [hp] at h
      obtain rfl := Option.some.inj h
      exact List.mem_cons_self a as
    | some o2 =>
      rw [hp] at h
      dsimp only at h
      by_cases hgt : o2.expires_at > a.expires_at
      · rw [if_pos hgt] at h
        obtain rfl := Option.some.inj h
        exact List.mem_cons_of_mem a (ih hp)
      · rw [if_neg hgt] at h
        obtain rfl := Option.some.inj h
        exact List.mem_cons_self a as

theorem pickLatest_max {l : List OtpRecord} : ∀ {o : OtpRecord}, pickLatest l = some o →
    ∀ x ∈ l, x.expires_at ≤ o.expires_at := by
  induction l with
  | nil => intro o h; simp [pickLatest] at h
  | cons a as ih =>
    intro o h x hx
    unfold pickLatest at h
    cases hp : pickLatest as with
    | none =>
      rw [hp] at h
      obtain rfl := Option.some.inj h
      have has : as = [] := by
        cases as with
        | nil => rfl
        | cons b bs =>
          have := pickLatest_isSome b bs
          rw [hp] at this
          exact absurd this (by simp)
      subst has
      obtain rfl := List.mem_singleton.mp hx
      exact le_rfl
    | some o2 =>
      rw [hp] at h
      dsimp only at h
      by_cases hgt : o2.expires_at > a.expires_at
      · rw [if_pos hgt] at h
        obtain rfl := Option.some.inj h
        rcases List.mem_cons.mp hx with rfl | hxs
        · exact le_of_lt hgt
        · exact ih hp x hxs
      · rw [if_neg hgt] at h
        obtain rfl := Option.some.inj h
        rcases List.mem_cons.mp hx with rfl | hxs
        · exact le_rfl
        · exact le_trans (ih hp x hxs) (not_lt.mp hgt)

theorem checkOtpSuccess_otps (phone : String) (sel : OtpRecord) (st : St) :
    (checkOtpSuccess phone sel st).2.otps
      = st.otps.map (fun o => if o.id == sel.id then { o with used := true } else o) := by
  simp [checkOtpSuccess, upsert_otps]

theorem update_otps_pointwise (l : List OtpRecord) (sel : OtpRecord) (i : Nat)
    (hnd : (l.map (fun o => o.id)).Nodup) (hi : l[i]? = some sel) :
    (l.map (fun o => if o.id == sel.id then { o with used := true } else o))[i]?
        = some { sel with used := true } ∧
    ∀ j, j ≠ i → (l.map (fun o => if o.id == sel.id then { o with used := true } else o))[j]?
        = l[j]? := by
  constructor
  · rw [List.getElem?_map, hi]
    simp
  · intro j hj
    rw [List.getElem?_map]
    cases hj' : l[j]? with
    | none => rfl
    | some o =>
      have hne : o.id ≠ sel.id := by
        intro he
        have h1 : (l.map (fun o => o.id))[i]? = some sel.id := by
          rw [List.getElem?_map, hi]; rfl
        have h2 : (l.map (fun o => o.id))[j]? = some sel.id := by
          rw [List.getElem?_map, hj']; simp [he]
        have hlen : j < (l.map (fun o => o.id)).length := by
          rw [List.length_map]
          exact (List.getElem?_eq_some.mp hj').1
        exact hj (List.getElem?_inj hlen hnd (h2.trans h1.symm))
      simp [hne]

theorem matchZoneAt_none_iff (l : List Char) :
    matchZoneAt l = none ↔ ∀ v ∈ zoneVocab, matchCI v l = false := by
  unfold matchZoneAt
  cases hf : zoneVocab.find? (fun v => matchCI v l) with
  | none =>
    constructor
    · intro _ v hv
      have := List.find?_eq_none.mp hf v hv
      simpa using this
    · intro _; rfl
  | some v =>
    constructor
    · intro h; exact absurd h (by simp)
    · intro hall
      have hp := List.find?_some hf
      rw [hall v (List.mem_of_find?_eq_some hf)] at hp
      exact absurd hp (by simp)

theorem matchZoneAt_some {l w : List Char} (h : matchZoneAt l = some w) :
    ∃ v ∈ zoneVocab, matchCI v l = true ∧ w = l.take v.length := by
  unfold matchZoneAt at h
  cases hf : zoneVocab.find? (fun v => matchCI v l) with
  | none => rw [hf] at h; exact absurd h (by simp)
  | some v =>
    rw [hf] at h
    dsimp only at h
    obtain rfl := Option.some.inj h
    have hpv := List.find?_some hf
    exact ⟨v, List.mem_of_find?_eq_some hf, hpv, rfl⟩

theorem findZone_none_iff (l : List Char) :
    findZone l = none ↔ ∀ p : Nat, matchZoneAt (l.drop p) = none := by
  induction l with
  | nil =>
    constructor
    · intro _ p
      rw [List.drop_nil]
      decide
    · intro _; rfl
  | cons c cs ih =>
    unfold findZone
    cases hm : matchZoneAt (c :: cs) with
    | some w =>
      constructor
      · intro h; exact absurd h (by simp)
      · intro hall
        have h0 := hall 0
        rw [List.drop_zero, hm] at h0
        exact absurd h0 (by simp)
    | none =>
      dsimp only
      rw [ih]
      constructor
      · intro hall p
        cases p with
        | zero => rw [List.drop_zero]; exact hm
        | succ q => rw [List.drop_succ_cons]; exact hall q
      · intro hall q
        have := hall (q + 1)
        rw [List.drop_succ_cons] at this
        exact this

theorem findZone_some {l w : List Char} (h : findZone l = some w) :
    ∃ p : Nat, matchZoneAt (l.drop p) = some w ∧
      ∀ q, q < p → matchZoneAt (l.drop q) = none := by
  induction l with
  | nil => simp [findZone] at h
  | cons c cs ih =>
    unfold findZone at h
    cases hm : matchZoneAt (c :: cs) with
    | some w0 =>
      rw [hm] at h
      dsimp only at h
      obtain rfl := Option.some.inj h
      exact ⟨0, by rw [List.drop_zero]; exact hm, fun q hq => absurd hq (Nat.not_lt_zero q)⟩
    | none =>
      rw [hm] at h
      dsimp only at h
      obtain ⟨p, hp, hmin⟩ := ih h
      refine ⟨p + 1, ?_, ?_⟩
      · rw [List.drop_succ_cons]; exact hp
      · intro q hq
        cases q with
        | zero => rw [List.drop_zero]; exact hm
        | succ q2 =>
          rw [List.drop_succ_cons]
          exact hmin q2 (Nat.succ_lt_succ_iff.mp hq)

theorem matchPriceAt_some {l a b : List Char} (h : matchPriceAt l = some (a, b)) :
    3 ≤ a.length ∧ a.all Char.isDigit = true ∧ 3 ≤ b.length ∧ b.all Char.isDigit = true := by
  unfold matchPriceAt pricePhase2 at h
  split at h
  · exact absurd h (by simp)
  · split at h
    · unfold pricePhase3 at h
      split at h
      · exact absurd h (by simp)
      · have hinj := Option.some.inj h
        rw [Prod.mk.injEq] at hinj
        obtain ⟨ha, hb⟩ := hinj
        subst ha; subst hb
        refine ⟨by omega, ?_, by omega, ?_⟩
        · rw [List.all_eq_true]; exact fun x hx => List.mem_takeWhile_imp hx
        · rw [List.all_eq_true]; exact fun x hx => List.mem_takeWhile_imp hx
    · exact absurd h (by simp)

theorem findPrice_digits {l a b : List Char} (h : findPrice l = some (a, b)) :
    3 ≤ a.length ∧ a.all Char.isDigit = true ∧ 3 ≤ b.length ∧ b.all Char.isDigit = true := by
  induction l with
  | nil => simp [findPrice] at h
  | cons c cs ih =>
    unfold findPrice at h
    cases hm : matchPriceAt (c :: cs) with
    | some pq =>
      rw [hm] at h
      dsimp only at h
      have hpq : pq = (a, b) := Option.some.inj h
      subst hpq
      exact matchPriceAt_some hm
    | none =>
      rw [hm] at h
      dsimp only at h
      exact ih h

/-! ## Claims -/

/-- C10: the bedroom and bathroom unit patterns carry no trailing word
boundary, so a digit followed by a longer word beginning with "br" or
"ba" still matches: "2 brick" yields beds_min = 2 and "3 basement"
yields baths_min = 3, though neither text mentions bedrooms or
bathrooms. -/
theorem C10_no_word_boundary :
    (naiveExtractCriteria "2 brick").beds_min = some 2 ∧
    (naiveExtractCriteria "3 basement").baths_min = some 3 := by
  exact ⟨by decide, by decide⟩

/-- C1 counterexample: after the two-turn sequence "3 bed" then
"250000-450000" for the same buyer, the merged criteria persisted in the
store have both price_max and beds_min set, yet the second reply is the
bedroom question, not the must-haves question — so the follow-up is not
a function of the merged criteria with the claimed priority order. -/
theorem C1_counterexample :
    ((agentMessage 1 "250000-450000" 1 (agentMessage 1 "3 bed" 0 demoState).2.1).2.1.searches.map
        (fun x => (x.criteria.price_max, x.criteria.beds_min)) = [(some 450000, some 3)]) ∧
    (agentMessage 1 "250000-450000" 1 (agentMessage 1 "3 bed" 0 demoState).2.1).1.reply
      = some bedsQuestion ∧
    bedsQuestion ≠ mustHavesQuestion := by
  refine ⟨by decide, by decide, by decide⟩

/-- C6 counterexample: the zone capture is the matched substring of the
input, with the input's casing, not the canonical vocabulary spelling:
extracting from "i like sterlington" yields zones = ["sterlington"],
which differs from ["Sterlington"]. -/
theorem C6_counterexample :
    (naiveExtractCriteria "i like sterlington").zones = some ["sterlington"] ∧
    (["sterlington"] : List String) ≠ ["Sterlington"] := by
  exact ⟨by decide, by decide⟩

/-- C9 counterexample: `\d{3,}` admits leading zeros, so the captured
integers can be numerically below 100: extracting from "000-000" sets
price_min = 0 (and price_max = 0), refuting "when present each is ≥
100". -/
theorem C9_counterexample :
    (naiveExtractCriteria "000-000").price_min = some 0 ∧
    (naiveExtractCriteria "000-000").price_max = some 0 ∧
    ¬ (100 ≤ (0 : Nat)) := by
  refine ⟨by decide, by decide, by decide⟩

/-- C8: for every random draw r ∈ [0,1), the generated passcode
`Math.floor(100000 + r * 900000)` lies in [100000, 999999], and every
value of that inclusive range is attained by some draw. -/
theorem C8_code_range :
    (∀ r : ℚ, 0 ≤ r → r < 1 → 100000 ≤ genCode r ∧ genCode r ≤ 999999) ∧
    (∀ n : Nat, 100000 ≤ n → n ≤ 999999 → ∃ r : ℚ, 0 ≤ r ∧ r < 1 ∧ genCode r = n) := by
  constructor
  · intro r h0 h1
    have hx0 : (100000 : ℚ) ≤ 100000 + r * 900000 := by nlinarith
    have hx1 : (100000 : ℚ) + r * 900000 < 1000000 := by nlinarith
    have hf0 : (100000 : ℤ) ≤ ⌊(100000 : ℚ) + r * 900000⌋ := by
      rw [Int.le_floor]; exact_mod_cast hx0
    have hf1 : ⌊(100000 : ℚ) + r * 900000⌋ < 1000000 := by
      rw [Int.floor_lt]; exact_mod_cast hx1
    have hnn : (0 : ℤ) ≤ ⌊(100000 : ℚ) + r * 900000⌋ := le_trans (by norm_num) hf0
    unfold genCode
    constructor
    · exact (Int.le_toNat hnn).mpr hf0
    · exact Int.toNat_le.mpr (by omega)
  · intro n hn0 hn1
    refine ⟨((n : ℚ) - 100000) / 900000, ?_, ?_, ?_⟩
    · apply div_nonneg _ (by norm_num)
      have : (100000 : ℚ) ≤ (n : ℚ) := by exact_mod_cast hn0
      linarith
    · rw [div_lt_one (by norm_num : (0:ℚ) < 900000)]
      have : (n : ℚ) ≤ 999999 := by exact_mod_cast hn1
      linarith
    · unfold genCode
      have hmul : ((n : ℚ) - 100000) / 900000 * 900000 = (n : ℚ) - 100000 :=
        div_mul_cancel₀ _ (by norm_num)
      rw [hmul]
      have : (100000 : ℚ) + ((n : ℚ) - 100000) = (n : ℚ) := by ring
      rw [this, Int.floor_natCast, Int.toNat_natCast]

/-- C8 witness: the theorem applied at the concrete draw r = 0. -/
theorem C8_witness : 100000 ≤ genCode 0 ∧ genCode 0 ≤ 999999 :=
  C8_code_range.1 0 le_rfl (by norm_num)

/-- C4: send-otp inserts the OtpCode row before the SMS call (the trace
lists the store insert strictly before the delivery-channel send), and a
delivery failure makes the endpoint answer 500 while the already
persisted row stays in the store unrolled-back. -/
theorem C4_persist_then_notify : ∀ (st : St) (phone : String) (r : ℚ) (now : Nat),
    phone ≠ "" →
    (sendOtp phone r now true false st).1.status = 500 ∧
    (sendOtp phone r now true false st).2.2 =
      [Event.upsertBuyer phone, Event.insertOtp phone (toString (genCode r)) (now + 600000),
       Event.smsSend phone] ∧
    (sendOtp phone r now true false st).2.1.otps =
      st.otps ++ [⟨st.nextOtpId, phone, toString (genCode r), now + 600000, false⟩] := by
  intro st phone r now h
  have hb : (phone == "") = false := beq_eq_false_iff_ne.mpr h
  refine ⟨?_, ?_, ?_⟩ <;>
    simp [sendOtp, hb, upsert_otps, upsert_nextOtpId]

/-- C4 witness: the theorem applied to the sample store. -/
theorem C4_witness :
    (sendOtp "+13185551234" 0 0 true false demoState).1.status = 500 :=
  (C4_persist_then_notify demoState "+13185551234" 0 0 (by decide)).1

/-- C7: when a buyer with the given phone already exists, send-otp
leaves the buyer table exactly as it was — no duplicate row, no altered
field; in particular phone_verified is untouched (the upsert's only
written column is phone, set to its existing value). -/
theorem C7_send_otp_frame : ∀ (st : St) (phone : String) (r : ℚ) (now : Nat) (cfg okDelivery : Bool),
    (∃ b ∈ st.buyers, b.phone = phone) →
    (sendOtp phone r now cfg okDelivery st).2.1.buyers = st.buyers := by
  intro st phone r now cfg okDelivery h
  by_cases hp : (phone == "") = true
  · simp [sendOtp, hp]
  · have hid := upsert_state_id phone st h
    cases cfg <;> simp [sendOtp, hp, hid]

/-- C7 witness: the theorem applied to the sample store, whose only
buyer already has the phone being verified. -/
theorem C7_witness :
    (sendOtp "+13185551234" 0 0 true true demoState).2.1.buyers = demoState.buyers :=
  C7_send_otp_frame demoState "+13185551234" 0 0 true true
    ⟨⟨1, "+13185551234", true⟩, by decide, rfl⟩

/-- C3: the message handler's merge is right-biased per field: with a
stored record present and a non-empty extracted partial, the persisted
and returned merged mapping is the stored mapping with every key present
in the partial overwritten by the partial's value and every absent key
left untouched. -/
theorem C3_merge_right_biased : ∀ (st : St) (buyerId : Nat) (msg : String) (now : Nat)
    (r0 : SavedSearch),
    buyerId ≠ 0 → msg ≠ "" →
    (naiveExtractCriteria msg).nonEmpty = true →
    pickEarliest (st.searches.filter (fun x => x.buyer_id == buyerId)) = some r0 →
    (agentMessage buyerId msg now st).1.savedSearch
      = some (r0.id, mergeCriteria r0.criteria (naiveExtractCriteria msg)) ∧
    (agentMessage buyerId msg now st).2.1.searches
      = st.searches.map (fun x =>
          if x.id == r0.id
          then { x with criteria := mergeCriteria r0.criteria (naiveExtractCriteria msg) }
          else x) ∧
    mergeSpec r0.criteria (naiveExtractCriteria msg)
      (mergeCriteria r0.criteria (naiveExtractCriteria msg)) := by
  intro st buyerId msg now r0 hb hm hne hpick
  have hb' : (buyerId == 0) = false := by simp [hb]
  have hm' : (msg == "") = false := beq_eq_false_iff_ne.mpr hm
  refine ⟨?_, ?_, ?_⟩
  · simp [agentMessage, hb', hm', hne, hpick]
  · simp [agentMessage, hb', hm', hne, hpick]
  · exact ⟨fun v h => ovr_some _ h, fun h => ovr_none _ h,
      fun v h => ovr_some _ h, fun h => ovr_none _ h,
      fun v h => ovr_some _ h, fun h => ovr_none _ h,
      fun v h => ovr_some _ h, fun h => ovr_none _ h,
      fun v h => ovr_some _ h, fun h => ovr_none _ h,
      fun v h => ovr_some _ h, fun h => ovr_none _ h,
      fun v h => ovr_some _ h, fun h => ovr_none _ h⟩

/-- C3 witness: merging the price-range turn into a stored search that
only has beds_min. -/
theorem C3_witness :
    (agentMessage 1 "250000-450000" 5 demoState2).1.savedSearch
      = some (1, mergeCriteria { beds_min := some 3 } (naiveExtractCriteria "250000-450000")) :=
  (C3_merge_right_biased demoState2 1 "250000-450000" 5 ⟨1, 1, { beds_min := some 3 }, 0⟩
    (by decide) (by decide) (by decide) (by decide)).1

/-- C5: a turn whose extracted partial criteria is empty skips the merge
entirely — no saved-search store call happens, the state is unchanged
and the response's savedSearch is null; and an insert happens only on a
turn with non-empty extracted criteria and no existing record, appending
a fresh record whose criteria is exactly the extracted partial. -/
theorem C5_empty_skip : ∀ (st : St) (buyerId : Nat) (msg : String) (now : Nat),
    ((naiveExtractCriteria msg).nonEmpty = false →
      (agentMessage buyerId msg now st).2.2 = [] ∧
      (agentMessage buyerId msg now st).2.1 = st ∧
      (agentMessage buyerId msg now st).1.savedSearch = none) ∧
    (SEvent.insertSearch buyerId ∈ (agentMessage buyerId msg now st).2.2 →
      (naiveExtractCriteria msg).nonEmpty = true ∧
      pickEarliest (st.searches.filter (fun x => x.buyer_id == buyerId)) = none ∧
      (agentMessage buyerId msg now st).2.1.searches
        = st.searches ++ [⟨st.nextSearchId, buyerId, naiveExtractCriteria msg, now⟩]) := by
  intro st buyerId msg now
  by_cases hg : (buyerId == 0 || msg == "") = true
  · constructor
    · intro _; simp [agentMessage, hg]
    · intro hmem; simp [agentMessage, hg] at hmem
  · have hg' : (buyerId == 0 || msg == "") = false := by simpa using hg
    constructor
    · intro hne; simp [agentMessage, hg', hne]
    · intro hmem
      by_cases hne : (naiveExtractCriteria msg).nonEmpty = true
      · cases hpick : pickEarliest (st.searches.filter (fun x => x.buyer_id == buyerId)) with
        | none =>
            exact ⟨hne, rfl, by simp [agentMessage, hg', hne, hpick]⟩
        | some r0 =>
            simp [agentMessage, hg', hne, hpick] at hmem
      · have hne' : (naiveExtractCriteria msg).nonEmpty = false := by simpa using hne
        simp [agentMessage, hg', hne'] at hmem

/-- C5 witness: the message "hello" extracts nothing and leaves the
store untouched. -/
theorem C5_witness :
    (agentMessage 1 "hello" 0 demoState).2.2 = [] ∧
    (agentMessage 1 "hello" 0 demoState).2.1 = demoState ∧
    (agentMessage 1 "hello" 0 demoState).1.savedSearch = none :=
  (C5_empty_skip demoState 1 "hello" 0).1 (by decide)

/-- C1 amended: the follow-up question returned in reply is a function
of this turn's extracted partial criteria (not of the merged criteria),
checked in the fixed order: if the extracted price_max is absent (or 0)
the price question, else if the extracted beds_min is absent (or 0) the
bedroom question, else the must-haves question. -/
theorem C1_reply_from_extracted : ∀ (st : St) (buyerId : Nat) (msg : String) (now : Nat),
    buyerId ≠ 0 → msg ≠ "" →
    (agentMessage buyerId msg now st).1.reply = some (nextQ (naiveExtractCriteria msg)) ∧
    (optFalsy (naiveExtractCriteria msg).price_max = true →
      nextQ (naiveExtractCriteria msg) = priceQuestion) ∧
    (optFalsy (naiveExtractCriteria msg).price_max = false →
      optFalsy (naiveExtractCriteria msg).beds_min = true →
      nextQ (naiveExtractCriteria msg) = bedsQuestion) ∧
    (optFalsy (naiveExtractCriteria msg).price_max = false →
      optFalsy (naiveExtractCriteria msg).beds_min = false →
      nextQ (naiveExtractCriteria msg) = mustHavesQuestion) := by
  intro st buyerId msg now hb hm
  have hb' : (buyerId == 0) = false := by simp [hb]
  have hm' : (msg == "") = false := beq_eq_false_iff_ne.mpr hm
  refine ⟨?_, ?_, ?_, ?_⟩
  · by_cases hne : (naiveExtractCriteria msg).nonEmpty = true
    · cases hpick : pickEarliest (st.searches.filter (fun x => x.buyer_id == buyerId)) with
      | none => simp [agentMessage, hb', hm', hne, hpick]
      | some r0 => simp [agentMessage, hb', hm', hne, hpick]
    · have hne' : (naiveExtractCriteria msg).nonEmpty = false := by simpa using hne
      simp [agentMessage, hb', hm', hne']
  · intro h; simp [nextQ, h]
  · intro h1 h2; simp [nextQ, h1, h2]
  · intro h1 h2; simp [nextQ, h1, h2]

/-- C1 witness: a first "3 bed" turn gets the price question back,
because this turn's extracted criteria has no price_max. -/
theorem C1_witness :
    (agentMessage 1 "3 bed" 0 demoState).1.reply = some (nextQ (naiveExtractCriteria "3 bed")) :=
  (C1_reply_from_extracted demoState 1 "3 bed" 0 (by decide) (by decide)).1

/-- C2: with phone and code present, check-otp succeeds iff some stored
OTP row for that phone equals the code, is unused and expires strictly
after the check time; on success exactly one row — one of maximal expiry
among the matching rows — flips to used while every other row is
untouched; on failure it answers 400 and changes nothing. -/
theorem C2_verify_code : ∀ (st : St) (phone code : String) (now : Nat),
    phone ≠ "" → code ≠ "" →
    (((checkOtp phone code now st).1.status = 200) ↔ ∃ o ∈ st.otps, OtpOkP phone code now o) ∧
    ((checkOtp phone code now st).1.status ≠ 200 →
      (checkOtp phone code now st).1.status = 400 ∧ (checkOtp phone code now st).2 = st) ∧
    ((checkOtp phone code now st).1.status = 200 →
      (st.otps.map (fun o => o.id)).Nodup →
      ∃ (sel : OtpRecord) (i : Nat), OtpOkP phone code now sel ∧
        (∀ o ∈ st.otps, OtpOkP phone code now o → o.expires_at ≤ sel.expires_at) ∧
        st.otps[i]? = some sel ∧
        (checkOtp phone code now st).2.otps[i]? = some { sel with used := true } ∧
        ∀ j : Nat, j ≠ i → (checkOtp phone code now st).2.otps[j]? = st.otps[j]?) := by
  intro st phone code now hp hc
  have hp' : (phone == "") = false := beq_eq_false_iff_ne.mpr hp
  have hc' : (code == "") = false := beq_eq_false_iff_ne.mpr hc
  have hguard : (phone == "" || code == "") = false := by rw [hp', hc']; rfl
  have hok : ∀ o : OtpRecord, otpOk phone code now o = true ↔ OtpOkP phone code now o := by
    intro o
    simp [otpOk, OtpOkP, Bool.and_eq_true, beq_iff_eq, Bool.not_eq_true', and_assoc]
  cases hm : pickLatest (st.otps.filter (otpOk phone code now)) with
  | none =>
    have hnone : ∀ o ∈ st.otps, ¬ OtpOkP phone code now o := by
      intro o ho hP
      have hflt0 : st.otps.filter (otpOk phone code now) = [] := by
        cases hflt : st.otps.filter (otpOk phone code now) with
        | nil => rfl
        | cons a as =>
          rw [hflt] at hm
          have := pickLatest_isSome a as
          rw [hm] at this
          exact absurd this (by simp)
      have : o ∈ ([] : List OtpRecord) :=
        hflt0 ▸ List.mem_filter.mpr ⟨ho, (hok o).mpr hP⟩
      simp at this
    refine ⟨?_, ?_, ?_⟩
    · constructor
      · intro h200; exfalso; simp [checkOtp, hguard, hm] at h200
      · rintro ⟨o, ho, hP⟩; exact absurd hP (hnone o ho)
    · intro _
      constructor <;> simp [checkOtp, hguard, hm]
    · intro h200; exfalso; simp [checkOtp, hguard, hm] at h200
  | some sel =>
    have hstatus : (checkOtp phone code now st).1.status = 200 := by
      simp [checkOtp, hguard, hm, checkOtpSuccess]
    have hmemf := pickLatest_mem hm
    have hselP : OtpOkP phone code now sel := (hok sel).mp (List.mem_filter.mp hmemf).2
    have hsel_in : sel ∈ st.otps := (List.mem_filter.mp hmemf).1
    refine ⟨?_, ?_, ?_⟩
    · exact ⟨fun _ => ⟨sel, hsel_in, hselP⟩, fun _ => hstatus⟩
    · intro hne; exact absurd hstatus hne
    · intro _ hnd
      obtain ⟨i, hi⟩ := List.mem_iff_getElem?.mp hsel_in
      have hupd := update_otps_pointwise st.otps sel i hnd hi
      have hotps : (checkOtp phone code now st).2.otps
          = st.otps.map (fun o => if o.id == sel.id then { o with used := true } else o) := by
        simp [checkOtp, hguard, hm, checkOtpSuccess_otps]
      refine ⟨sel, i, hselP, ?_, hi, ?_, ?_⟩
      · intro o ho hP
        exact pickLatest_max hm o (List.mem_filter.mpr ⟨ho, (hok o).mpr hP⟩)
      · rw [hotps]; exact hupd.1
      · intro j hj; rw [hotps]; exact hupd.2 j hj

/-- C2 witness: a matching fresh code verifies with status 200. -/
theorem C2_witness :
    (checkOtp "+13185551234" "123456" 0 demoState3).1.status = 200 :=
  ((C2_verify_code demoState3 "+13185551234" "123456" 0 (by decide) (by decide)).1).mpr
    ⟨⟨1, "+13185551234", "123456", 600000, false⟩, by decide, by decide⟩

/-- C6 amended: whenever a zone vocabulary word occurs case-insensitively
in the text, zones is a singleton holding the slice of the input at the
first (leftmost) such occurrence, with the input's own casing (not the
canonical vocabulary spelling); when no word occurs, zones is absent. -/
theorem C6_first_match_input_cased : ∀ s : String,
    ((naiveExtractCriteria s).zones = none →
      ∀ p : Nat, ∀ v ∈ zoneVocab, matchCI v (s.data.drop p) = false) ∧
    (∀ zs, (naiveExtractCriteria s).zones = some zs →
      ∃ p : Nat, ∃ v ∈ zoneVocab, matchCI v (s.data.drop p) = true ∧
        zs = [String.mk ((s.data.drop p).take v.length)] ∧
        ∀ q, q < p → ∀ u ∈ zoneVocab, matchCI u (s.data.drop q) = false) := by
  intro s
  constructor
  · intro hz p v hv
    have hfz : findZone s.data = none := by
      cases hf : findZone s.data with
      | none => rfl
      | some w =>
        unfold naiveExtractCriteria at hz
        rw [hf] at hz
        simp at hz
    exact (matchZoneAt_none_iff _).mp ((findZone_none_iff s.data).mp hfz p) v hv
  · intro zs hz
    cases hf : findZone s.data with
    | none =>
      unfold naiveExtractCriteria at hz
      rw [hf] at hz
      simp at hz
    | some w =>
      have hzs : zs = [String.mk w] := by
        unfold naiveExtractCriteria at hz
        rw [hf] at hz
        simpa using hz.symm
      obtain ⟨p, hp, hmin⟩ := findZone_some hf
      obtain ⟨v, hv, hciv, hw⟩ := matchZoneAt_some hp
      refine ⟨p, v, hv, hciv, ?_, ?_⟩
      · rw [hzs, hw]
      · intro q hq u hu
        exact (matchZoneAt_none_iff _).mp (hmin q hq) u hu

/-- C6 witness: "go sterlington" has its first (and only) vocabulary
occurrence at position 3, and the extracted zone keeps the input's
lowercase spelling. -/
theorem C6_witness :
    ∃ p : Nat, ∃ v ∈ zoneVocab, matchCI v ("go sterlington".data.drop p) = true ∧
      ["sterlington"] = [String.mk (("go sterlington".data.drop p).take v.length)] ∧
      ∀ q, q < p → ∀ u ∈ zoneVocab, matchCI u ("go sterlington".data.drop q) = false :=
  (C6_first_match_input_cased "go sterlington").2 ["sterlington"] (by decide)

/-- C9 amended: price_min is present iff price_max is (both come from
the two captured digit runs of a single range match), and each captured
run has at least 3 digits, every character a digit — but leading zeros
allow the numeric value to be below 100. -/
theorem C9_price_pair : ∀ s : String,
    ((naiveExtractCriteria s).price_min.isSome = true ↔
      (naiveExtractCriteria s).price_max.isSome = true) ∧
    (∀ a : Nat, (naiveExtractCriteria s).price_min = some a →
      ∃ d1 d2 : List Char, findPrice s.data = some (d1, d2) ∧ a = digitsToNat d1 ∧
        (naiveExtractCriteria s).price_max = some (digitsToNat d2) ∧
        3 ≤ d1.length ∧ d1.all Char.isDigit = true ∧
        3 ≤ d2.length ∧ d2.all Char.isDigit = true) := by
  intro s
  constructor
  · unfold naiveExtractCriteria
    cases findPrice s.data <;> simp
  · intro a ha
    cases hf : findPrice s.data with
    | none =>
      unfold naiveExtractCriteria at ha
      rw [hf] at ha
      simp at ha
    | some p =>
      obtain ⟨d1, d2⟩ := p
      have hd := findPrice_digits hf
      refine ⟨d1, d2, rfl, ?_, ?_, hd.1, hd.2.1, hd.2.2.1, hd.2.2.2⟩
      · unfold naiveExtractCriteria at ha
        rw [hf] at ha
        exact (Option.some.inj ha).symm
      · unfold naiveExtractCriteria
        rw [hf]
        rfl

/-- C9 witness: the range turn "250000-450000" produces the paired
captures, both at least 3 digits. -/
theorem C9_witness :
    ∃ d1 d2 : List Char, findPrice "250000-450000".data = some (d1, d2) ∧
      250000 = digitsToNat d1 ∧
      (naiveExtractCriteria "250000-450000").price_max = some (digitsToNat d2) ∧
      3 ≤ d1.length ∧ d1.all Char.isDigit = true ∧
      3 ≤ d2.length ∧ d2.all Char.isDigit = true :=
  (C9_price_pair "250000-450000").2 250000 (by decide)

end HouseHunt
